import Mathlib

/-!
Verification development for the `liteSeq2Seq.py` sequence-to-sequence
trainer.  The definitions below are a shallow embedding of the pure parts of
the program: Python floats are modelled as rationals (exact arithmetic) and
real-valued results built from `exp` as reals, Python lists as `List`,
`Counter` lookups as `List.count`, and fallible code (code that can raise
`ZeroDivisionError`, `ValueError`, `RuntimeError` or `AssertionError`) as
`Option`-valued functions where `none` models the raised exception.
-/

/-! ## Hyperparameter merging (`Seq2seq._merge`) -/

/-- A Python scalar as stored in a `Hyparams` namedtuple field: `None`, an
int, a float (modelled as an exact rational) or a bool. -/
inductive PyVal where
  | vnone : PyVal
  | vint : ℤ → PyVal
  | vfloat : ℚ → PyVal
  | vbool : Bool → PyVal
  deriving DecidableEq

/-- Python truthiness of such a scalar: `None`, `0`, `0.0` and `False` are
falsy, everything else is truthy. -/
def PyVal.truthy : PyVal → Bool
  | .vnone => false
  | .vint n => n != 0
  | .vfloat q => q != 0
  | .vbool b => b

/-- Python's `x or y`: evaluates to `x` when `x` is truthy, else to `y`. -/
def pyOr (x y : PyVal) : PyVal := if x.truthy then x else y

/-- Embedding of `Seq2seq._merge`.  A `Hyparams` namedtuple is modelled as the
list of its field values; the source computes
`Hyparams(*[n_v or o_v for o_v, n_v in zip(base_hyp, new_hyp)])`. -/
def merge (base_hyp new_hyp : List PyVal) : List PyVal :=
  List.zipWith (fun o_v n_v => pyOr n_v o_v) base_hyp new_hyp

/-! ## Learning-rate scheduler (`Seq2seq.lr_schedule`) -/

/-- State of the `lr_schedule` generator between two `yield`s: the current
rate `lr`, the current decay threshold `start_p`, the decay interval
`every_step`, the factor `decay_rate`, and the running counter
`global_step`. -/
structure LrState where
  lr : ℚ
  start_p : ℚ
  every_step : ℚ
  decay_rate : ℚ
  global_step : ℕ
  deriving DecidableEq

/-- One iteration of the `while True` loop of `Seq2seq.lr_schedule`: if
`global_step > start_p` then advance the threshold and decay the rate, then
increment `global_step` and yield the (possibly decayed) rate. -/
def lr_schedule_step (s : LrState) : ℚ × LrState :=
  if s.start_p < (s.global_step : ℚ) then
    let s2 : LrState :=
      { s with lr := s.lr * s.decay_rate, start_p := s.start_p + s.every_step,
               global_step := s.global_step + 1 }
    (s2.lr, s2)
  else
    (s.lr, { s with global_step := s.global_step + 1 })

/-- The list of the first `n` values yielded by the generator from state
`s`. -/
def lr_schedule_yields (s : LrState) : ℕ → List ℚ
  | 0 => []
  | n + 1 => (lr_schedule_step s).1 :: lr_schedule_yields (lr_schedule_step s).2 n

/-- Initial generator state of `lr_schedule(lr, start_p, every_step,
decay_rate)`: `global_step = 0`. -/
def lr_schedule_init (lr start_p every_step decay_rate : ℚ) : LrState :=
  ⟨lr, start_p, every_step, decay_rate, 0⟩

/-! ## Batch generation (`Seq2seq._padding_batch`) -/

/-- Embedding of `Seq2seq._padding_batch` with `forever=False`: the finite
list of batches produced by one round of the generator.  `eos_id` stands for
`self.decoder_vocab_to_int['<EOS>']`.  Each yielded batch is the 4-tuple
`(padding_batch_inputs, [inputs_cur_maxLen]*batch_size,
padding_batch_targets, [targets_cur_maxLen]*batch_size)` exactly as in the
source; `np.max` of the length lists is `foldr max 0`.  (For `batch_size = 0`
Python raises `ZeroDivisionError` at `len(targets) // batch_size`; claims
about this function assume a positive batch size.) -/
def padding_batch (inputs targets : List (List ℤ)) (batch_size : ℕ)
    (input_padding_val target_padding_val eos_id : ℤ) :
    List (List (List ℤ) × List ℕ × List (List ℤ) × List ℕ) :=
  (List.range (targets.length / batch_size)).map (fun i =>
    let start_i := i * batch_size
    let batch_inputs := (inputs.drop start_i).take batch_size
    let batch_targets :=
      ((targets.drop start_i).take batch_size).map (fun line => line ++ [eos_id])
    let inputs_cur_maxLen := (batch_inputs.map List.length).foldr max 0
    let targets_cur_maxLen := (batch_targets.map List.length).foldr max 0
    (batch_inputs.map
        (fun line => line ++ List.replicate (inputs_cur_maxLen - line.length) input_padding_val),
     List.replicate batch_size inputs_cur_maxLen,
     batch_targets.map
        (fun line => line ++ List.replicate (targets_cur_maxLen - line.length) target_padding_val),
     List.replicate batch_size targets_cur_maxLen))

/-! ## BLEU scoring (`Seq2seq._get_ngrams`, `Seq2seq._bleu`) -/

/-- Embedding of `Seq2seq._get_ngrams`: every contiguous `order`-gram of
`segment` for `order = 1 .. max_order`, with multiplicity (the Python
`Counter` is recovered through `List.count`).  The inner Python range
`range(0, len(segment) - order + 1)` is empty when `order > len(segment)`,
which truncated subtraction reproduces. -/
def get_ngrams {α : Type} (segment : List α) (max_order : ℕ) : List (List α) :=
  (List.range max_order).flatMap (fun o =>
    (List.range (segment.length + 1 - (o + 1))).map (fun i =>
      (segment.drop i).take (o + 1)))

/-- The total count landing in `matches_by_order[k]` from one sentence pair:
`overlap = gen_ngram_counts & refer_ngram_counts` keeps, for every distinct
ngram, the minimum of the two counts, and the loop adds `overlap[ngram]` to
the slot `len(ngram) - 1`.  Every ngram produced for order `o` has length
exactly `o`, so slot `k` collects precisely the ngrams of length `k + 1`
(deduplicated keys whose minimum count is `0` contribute nothing). -/
def overlap_at {α : Type} [DecidableEq α] (gen_ngrams refer_ngrams : List (List α))
    (k : ℕ) : ℕ :=
  (((gen_ngrams.dedup).filter (fun g => g.length = k + 1)).map
    (fun g => min (gen_ngrams.count g) (refer_ngrams.count g))).sum

/-- `matches_by_order` accumulated over `zip(refer_lists, gen_lists)`; entry
`k` holds the clipped matches of the `(k+1)`-grams.  `pairs` is the zipped
list, first component the reference sentence, second the generated one. -/
def matches_by_order {α : Type} [DecidableEq α] (pairs : List (List α × List α))
    (max_order : ℕ) : List ℕ :=
  (List.range max_order).map (fun k =>
    (pairs.map (fun p => overlap_at (get_ngrams p.2 max_order) (get_ngrams p.1 max_order) k)).sum)

/-- `possible_matches_by_order` accumulated over the same zip: for each pair
the source adds `len(gen_list) - order + 1` when positive, which truncated
subtraction `len + 1 - (k+1)` reproduces. -/
def possible_matches_by_order {α : Type} (pairs : List (List α × List α))
    (max_order : ℕ) : List ℕ :=
  (List.range max_order).map (fun k =>
    (pairs.map (fun p => p.2.length + 1 - (k + 1))).sum)

/-- The `precisions` list of `_bleu`: smoothed `(m + 1)/(p + 1)`, otherwise
`m/p` guarded by `p > 0` with fallback `0.0`. -/
def bleu_precisions (ms ps : List ℕ) (smooth : Bool) : List ℚ :=
  (ms.zip ps).map (fun mp =>
    if smooth then ((mp.1 : ℚ) + 1) / ((mp.2 : ℚ) + 1)
    else if 0 < mp.2 then (mp.1 : ℚ) / (mp.2 : ℚ) else 0)

/-- Embedding of `Seq2seq._bleu`.  `none` models a raised exception:
`min(precisions)` on an empty list (`max_order = 0`) raises `ValueError`,
`float(gen_length) / refer_length` with `refer_length == 0` and
`1. / ratio` with `ratio == 0.0` raise `ZeroDivisionError`.  The branch
conditions are exact rational comparisons; only the final score uses
`Real.exp`, mirroring `np.exp`.  Note the source feeds the arithmetic mean
`sum((1. / max_order) * p)` of the precisions to `np.exp` (the canonical
`np.log(p)` variant is commented out in the source). -/
noncomputable def bleu {α : Type} [DecidableEq α]
    (gen_lists refer_lists : List (List α)) (max_order : ℕ) (smooth : Bool) :
    Option ℝ :=
  let pairs := refer_lists.zip gen_lists
  let ms := matches_by_order pairs max_order
  let ps := possible_matches_by_order pairs max_order
  let precisions := bleu_precisions ms ps smooth
  match precisions.min? with
  | none => none
  | some minp =>
    let geo_mean : ℝ :=
      if 0 < minp then
        Real.exp (((precisions.map (fun p => (1 / (max_order : ℚ)) * p)).sum : ℚ) : ℝ)
      else 0
    let refer_length : ℕ := (pairs.map (fun p => p.1.length)).sum
    let gen_length : ℕ := (pairs.map (fun p => p.2.length)).sum
    if refer_length = 0 then none
    else
      let r : ℚ := (gen_length : ℚ) / (refer_length : ℚ)
      if 1 < r then some (geo_mean * 1)
      else if r = 0 then none
      else some (geo_mean * Real.exp (((1 - 1 / r : ℚ)) : ℝ))

/-! ## Vocabulary construction (`Seq2seq._parse_dict`) -/

/-- The selection loop of `Seq2seq._parse_dict` over
`word_count.most_common()`: starting from `cur_count` (initially `0`; the
four reserved tokens are not counted), add each count and keep the word while
`cur_count / n_words <= vocab_remain_rate`, stopping at the first word that
would push the cumulative mass beyond the rate.  `word_counts` is the
descending-frequency list of `(word, count)` pairs. -/
def parse_dict_select {α : Type} (n_words : ℕ) (rate : ℚ) :
    List (α × ℕ) → ℕ → List α
  | [], _ => []
  | (w, c) :: rest, cur_count =>
    if ((cur_count + c : ℕ) : ℚ) / (n_words : ℚ) ≤ rate then
      w :: parse_dict_select n_words rate rest (cur_count + c)
    else []

/-! ## Bucketizing (the `n_buckets > 1` block of `Seq2seq._parse_seq`) -/

/-- Embedding of the bucketizing block of `Seq2seq._parse_seq`, acting on the
per-line token counts of the already-filtered corpus.  `none` models a raised
exception: `max(encode_line_lens)` or `max(decode_line_lens)` on an empty
corpus raises `ValueError`, and a zero `bucket_width` makes
`max(enc_len, dec_len) // bucket_width` raise `ZeroDivisionError`.  The
buckets dictionary iterated over `sorted(buckets.keys())` is modelled by
sorting the deduplicated bucket ids; within one bucket the indices are kept
in insertion order (ascending), one concrete realisation of CPython's set
iteration order — every property proved below is independent of the
within-bucket order. -/
def bucketize (encode_line_lens decode_line_lens : List ℕ) (n_buckets : ℕ) :
    Option (List ℕ) :=
  if encode_line_lens = [] ∨ decode_line_lens = [] then none
  else
    let max_encode_len := encode_line_lens.foldr max 0
    let bucket_width := (max_encode_len + n_buckets - 1) / n_buckets
    if bucket_width = 0 then none
    else
      let tagged := ((encode_line_lens.zip decode_line_lens).map
        (fun p => max p.1 p.2 / bucket_width)).enum
      let keys := ((tagged.map Prod.snd).dedup).insertionSort (· ≤ ·)
      some ((keys.map (fun b_id =>
        (tagged.filter (fun t => t.2 = b_id)).map Prod.fst)).flatten)

/-! ## Sequence parsing and filtering (`Seq2seq._parse_seq`) -/

/-- `word not in vocab ... vocab_to_int.get(word, unk_id)`: the vocabulary is
modelled as a partial map from token to id. -/
def line_to_ids (vocab : String → Option ℤ) (unk_id : ℤ) (ws : List String) :
    List ℤ :=
  ws.map (fun w => (vocab w).getD unk_id)

/-- `cur_encode_n_unk` / `cur_decode_n_unk`: how many tokens of the line are
missing from the vocabulary. -/
def n_unk (vocab : String → Option ℤ) (ws : List String) : ℕ :=
  (ws.filter (fun w => (vocab w).isNone)).length

/-- The per-line filter loop of `Seq2seq._parse_seq`.  Lines are modelled
after `line.lower().split()`, i.e. as token lists.  A pair is skipped
(`continue`) when either side's token count leaves
`[input_seq_min_len, input_seq_max_len]` (`max_len` may be `float('inf')`,
hence `ℕ∞`), and appended only when both sides are nonempty and both
unknown fractions are strictly below `0.2`; Python's short-circuit `and`
guards the divisions, and the comparisons are exact here. -/
def parse_filter (encV decV : String → Option ℤ) (enc_unk dec_unk : ℤ)
    (min_len : ℕ) (max_len : ℕ∞) :
    List (List String × List String) → List (List ℤ) × List (List ℤ)
  | [] => ([], [])
  | (e, d) :: rest =>
    if ¬(min_len ≤ e.length ∧ (e.length : ℕ∞) ≤ max_len) then
      parse_filter encV decV enc_unk dec_unk min_len max_len rest
    else if ¬(min_len ≤ d.length ∧ (d.length : ℕ∞) ≤ max_len) then
      parse_filter encV decV enc_unk dec_unk min_len max_len rest
    else if 0 < e.length ∧ 0 < d.length ∧
        (n_unk encV e : ℚ) / (e.length : ℚ) < 0.2 ∧
        (n_unk decV d : ℚ) / (d.length : ℚ) < 0.2 then
      (line_to_ids encV enc_unk e :: (parse_filter encV decV enc_unk dec_unk min_len max_len rest).1,
       line_to_ids decV dec_unk d :: (parse_filter encV decV enc_unk dec_unk min_len max_len rest).2)
    else parse_filter encV decV enc_unk dec_unk min_len max_len rest

/-- Embedding of `Seq2seq._parse_seq` on tokenized lines.  The failed
`assert len(encode_lines) == len(decode_lines)` and any exception escaping
the bucketizing block are modelled as `none`.  With `n_buckets > 1` both
filtered lists are re-indexed through the same `decode_idxs`
(`parsed_lines[decode_idxs[i]] for i in range(len(decode_idxs))`). -/
def parse_seq (encode_lines decode_lines : List (List String))
    (encV decV : String → Option ℤ) (enc_unk dec_unk : ℤ)
    (min_len : ℕ) (max_len : ℕ∞) (n_buckets : ℕ) :
    Option (List (List ℤ) × List (List ℤ)) :=
  if encode_lines.length ≠ decode_lines.length then none
  else
    let fr := parse_filter encV decV enc_unk dec_unk min_len max_len
      (encode_lines.zip decode_lines)
    if 1 < n_buckets then
      (bucketize (fr.1.map List.length) (fr.2.map List.length) n_buckets).map
        (fun decode_idxs =>
          (decode_idxs.map (fun i => fr.1.getD i []),
           decode_idxs.map (fun i => fr.2.getD i [])))
    else some fr

/-! ## Model id renaming (`Seq2seq.set_id`) -/

/-- The three path-valued attributes of a `Seq2seq` instance that `set_id`
touches. -/
structure ModelPaths where
  model_id : String
  model_ckpt_dir : String
  model_ckpt_path : String
  deriving DecidableEq

/-- `os.path.join` for the simple relative components used here. -/
def path_join (a b : String) : String := a ++ "/" ++ b

/-- Embedding of `Seq2seq.set_id`.  The filesystem is abstracted by the
oracle `is_dir`.  `none` models the raised `RuntimeError('model named ..
is existed')`, in which case nothing was mutated and nothing renamed; on
success the result carries the updated attributes together with the
`os.rename` effect performed (`some (old_dir, new_dir)` precisely when the
old checkpoint directory existed). -/
def set_id (is_dir : String → Bool) (model_path : String) (st : ModelPaths)
    (new_id : String) : Option (ModelPaths × Option (String × String)) :=
  let last_model_ckpt_dir := st.model_ckpt_dir
  if is_dir (path_join model_path new_id) then none
  else
    let st2 : ModelPaths :=
      { model_id := new_id,
        model_ckpt_dir := path_join model_path new_id,
        model_ckpt_path := path_join (path_join model_path new_id) "checkpoint.ckpt" }
    some (st2,
      if is_dir last_model_ckpt_dir then some (last_model_ckpt_dir, st2.model_ckpt_dir)
      else none)

/-! ## Helper lemmas -/

theorem zipWith_getD_pyval (f : PyVal → PyVal → PyVal) :
    ∀ (a b : List PyVal) (i : ℕ), i < a.length → a.length = b.length →
      (List.zipWith f a b).getD i PyVal.vnone =
        f (a.getD i PyVal.vnone) (b.getD i PyVal.vnone)
  | [], _, i, hi, _ => by simp at hi
  | _ :: _, [], _, _, hlen => by simp at hlen
  | x :: xs, y :: ys, 0, _, _ => rfl
  | x :: xs, y :: ys, i + 1, hi, hlen => by
    simpa using zipWith_getD_pyval f xs ys i (by simpa using hi) (by simpa using hlen)

theorem mem_le_foldr_max (ns : List ℕ) (n : ℕ) (h : n ∈ ns) :
    n ≤ ns.foldr max 0 := by
  induction ns with
  | nil => cases h
  | cons a t ih =>
    rcases List.mem_cons.1 h with h1 | h2
    · exact h1 ▸ le_max_left _ _
    · exact le_trans (ih h2) (le_max_right _ _)

/-! ## Claim C2 -/

/-- Claim C2 as stated is false on the code: `_merge` keeps the override's
value only when it is *truthy*, not merely non-null.  With base field
`True` and override field `False` (non-null), the merged value is the base's
`True`, not the override's `False` — exactly the situation of the
`bleu_smooth` field. -/
theorem c2_counterexample :
    merge [PyVal.vint 4, PyVal.vbool true] [PyVal.vnone, PyVal.vbool false]
        = [PyVal.vint 4, PyVal.vbool true] ∧
      PyVal.vbool false ≠ PyVal.vnone ∧
      PyVal.vbool true ≠ PyVal.vbool false :=
  ⟨rfl, by decide, by decide⟩

/-- Claim C2 amended: merging two hyperparameter records yields, in every
field, the override's value whenever that value is truthy in Python's sense
(non-null and not `0`, `0.0`, `False`), and otherwise the base's value; in
particular merging base `(x=4, y=None)` with override `(x=None, y=7)` yields
`(x=4, y=7)`. -/
theorem c2_merge_truthy (base_hyp new_hyp : List PyVal)
    (hlen : base_hyp.length = new_hyp.length) (i : ℕ) (hi : i < base_hyp.length) :
    (merge base_hyp new_hyp).getD i PyVal.vnone =
      (if (new_hyp.getD i PyVal.vnone).truthy then new_hyp.getD i PyVal.vnone
       else base_hyp.getD i PyVal.vnone) ∧
    merge [PyVal.vint 4, PyVal.vnone] [PyVal.vnone, PyVal.vint 7]
        = [PyVal.vint 4, PyVal.vint 7] := by
  refine ⟨?_, rfl⟩
  rw [merge, zipWith_getD_pyval _ base_hyp new_hyp i hi hlen]
  rfl

/-- Witness for `c2_merge_truthy` at the claim's own instance: base
`(x=4, y=None)`, override `(x=None, y=7)`, field `0`. -/
theorem c2_merge_truthy_witness :
    (merge [PyVal.vint 4, PyVal.vnone] [PyVal.vnone, PyVal.vint 7]).getD 0 PyVal.vnone
        = PyVal.vint 4 ∧
      merge [PyVal.vint 4, PyVal.vnone] [PyVal.vnone, PyVal.vint 7]
        = [PyVal.vint 4, PyVal.vint 7] := by
  have h := c2_merge_truthy [PyVal.vint 4, PyVal.vnone] [PyVal.vnone, PyVal.vint 7]
    (by decide) 0 (by decide)
  exact ⟨by rw [h.1]; decide, h.2⟩

/-! ## Claim C5 -/

/-- Claim C5: `lr_schedule(0.1, 2, 3, 0.5)` yields
`[0.1, 0.1, 0.1, 0.05, 0.05, 0.05]` as its first six values; and in general
one generator iteration multiplies the rate by the decay factor and advances
the threshold by the decay interval exactly when the step counter has passed
the current threshold, otherwise yields the rate unchanged. -/
theorem c5_lr_schedule :
    lr_schedule_yields (lr_schedule_init 0.1 2 3 0.5) 6
        = [0.1, 0.1, 0.1, 0.05, 0.05, 0.05] ∧
      ∀ s : LrState,
        (lr_schedule_step s).1
            = (if s.start_p < (s.global_step : ℚ) then s.lr * s.decay_rate else s.lr) ∧
          (lr_schedule_step s).2.start_p
            = (if s.start_p < (s.global_step : ℚ) then s.start_p + s.every_step else s.start_p) ∧
          (lr_schedule_step s).2.lr = (lr_schedule_step s).1 ∧
          (lr_schedule_step s).2.global_step = s.global_step + 1 := by
  constructor
  · norm_num [lr_schedule_yields, lr_schedule_step, lr_schedule_init]
  · intro s
    by_cases h : s.start_p < (s.global_step : ℚ) <;>
      simp [lr_schedule_step, h]

/-! ## Claim C10 -/

/-- Claim C10: whenever a model directory named `new_id` already exists,
`set_id` raises (`none`) and therefore the instance's id, checkpoint
directory and checkpoint path keep their prior values and no directory is
renamed: the existence check precedes every mutation in the source. -/
theorem c10_set_id_existing (is_dir : String → Bool) (model_path : String)
    (st : ModelPaths) (new_id : String)
    (h : is_dir (path_join model_path new_id) = true) :
    set_id is_dir model_path st new_id = none := by
  simp [set_id, h]

/-- Witness for `c10_set_id_existing`: a filesystem on which
`./models/dup` exists. -/
theorem c10_set_id_existing_witness :
    (fun s => s == "./models/dup") (path_join "./models" "dup") = true ∧
      set_id (fun s => s == "./models/dup") "./models"
        ⟨"old", "./models/old", "./models/old/checkpoint.ckpt"⟩ "dup" = none :=
  ⟨by decide, c10_set_id_existing _ _ _ _ (by decide)⟩

/-! ## Claim C3 -/

/-- Claim C3 as stated is false on the code: `_padding_batch` yields
`[inputs_cur_maxLen]*batch_size` as the input-lengths annotation, not each
sequence's own token count.  For the batch `[[1], [2,3]]` the yielded
annotation is `[2, 2]` while the sequences' own token counts are `[1, 2]`. -/
theorem c3_counterexample :
    padding_batch [[1], [2, 3]] [[5], [6]] 2 0 0 9
        = [([[1, 0], [2, 3]], [2, 2], [[5, 9], [6, 9]], [2, 2])] ∧
      ([2, 2] : List ℕ) ≠ ([[1], [2, 3]] : List (List ℤ)).map List.length :=
  ⟨rfl, by decide⟩

/-- Claim C3 amended: every batch yielded by `_padding_batch` annotates the
inputs with the batch's own maximum input length repeated `batch_size`
times, and the targets with the batch's own maximum target length (after the
end-of-sequence id is appended) repeated `batch_size` times. -/
theorem c3_padding_batch_lens (inputs targets : List (List ℤ)) (batch_size : ℕ)
    (ipad tpad eos : ℤ) (i : ℕ) (hi : i < targets.length / batch_size) :
    ((padding_batch inputs targets batch_size ipad tpad eos).getD i ([], [], [], [])).2.1
        = List.replicate batch_size
            ((((inputs.drop (i * batch_size)).take batch_size).map List.length).foldr max 0) ∧
      ((padding_batch inputs targets batch_size ipad tpad eos).getD i ([], [], [], [])).2.2.2
        = List.replicate batch_size
            (((((targets.drop (i * batch_size)).take batch_size).map
                (fun line => line ++ [eos])).map List.length).foldr max 0) := by
  simp [padding_batch, List.getD_eq_getElem?_getD, List.getElem?_map,
    List.getElem?_range, hi]

/-- Witness for `c3_padding_batch_lens` on a concrete two-sequence batch. -/
theorem c3_padding_batch_lens_witness :
    0 < ([[5], [6]] : List (List ℤ)).length / 2 ∧
      ((padding_batch [[7], [2, 3]] [[5], [6]] 2 0 0 9).getD 0 ([], [], [], [])).2.1
        = [2, 2] ∧
      ((padding_batch [[7], [2, 3]] [[5], [6]] 2 0 0 9).getD 0 ([], [], [], [])).2.2.2
        = [2, 2] := by
  have h := c3_padding_batch_lens [[7], [2, 3]] [[5], [6]] 2 0 0 9 0 (by decide)
  exact ⟨by decide, by rw [h.1]; decide, by rw [h.2]; decide⟩

/-! ## Claim C9 -/

/-- Claim C9: `_padding_batch` with `forever=False` yields exactly
`⌊N / batch_size⌋` batches (the trailing partial batch is dropped), and in
every yielded batch each padded input row has width equal to that batch's own
maximum input length and each padded target row has width equal to that
batch's own maximum (end-of-sequence-extended) target length. -/
theorem c9_padding_batch (inputs targets : List (List ℤ)) (batch_size : ℕ)
    (ipad tpad eos : ℤ) (hlen : inputs.length = targets.length)
    (hb : 0 < batch_size) :
    (padding_batch inputs targets batch_size ipad tpad eos).length
        = inputs.length / batch_size ∧
      ∀ i, i < targets.length / batch_size →
        (∀ row ∈ ((padding_batch inputs targets batch_size ipad tpad eos).getD i
            ([], [], [], [])).1,
          row.length
            = (((inputs.drop (i * batch_size)).take batch_size).map List.length).foldr max 0) ∧
        (∀ row ∈ ((padding_batch inputs targets batch_size ipad tpad eos).getD i
            ([], [], [], [])).2.2.1,
          row.length
            = ((((targets.drop (i * batch_size)).take batch_size).map
                (fun line => line ++ [eos])).map List.length).foldr max 0) := by
  constructor
  · simp [padding_batch, hlen]
  · intro i hi
    simp only [padding_batch, List.getD_eq_getElem?_getD, List.getElem?_map,
      List.getElem?_range, hi, Option.map_some', Option.getD_some]
    constructor
    · intro row hrow
      rcases List.mem_map.1 hrow with ⟨line, hline, rfl⟩
      have hle : line.length
          ≤ (((inputs.drop (i * batch_size)).take batch_size).map List.length).foldr max 0 :=
        mem_le_foldr_max _ _ (List.mem_map_of_mem List.length hline)
      simp only [List.length_append, List.length_replicate]
      omega
    · intro row hrow
      rcases List.mem_map.1 hrow with ⟨line, hline, rfl⟩
      have hle : line.length
          ≤ ((((targets.drop (i * batch_size)).take batch_size).map
              (fun line => line ++ [eos])).map List.length).foldr max 0 :=
        mem_le_foldr_max _ _ (List.mem_map_of_mem List.length hline)
      simp only [List.length_append, List.length_replicate]
      omega

/-- Witness for `c9_padding_batch`: five pairs, batch size two, so two
batches are yielded and each padded row in the first batch has its batch's
maximum width. -/
theorem c9_padding_batch_witness :
    ([[1], [2, 3], [4], [5], [6]] : List (List ℤ)).length
        = ([[9], [8], [7], [6], [5]] : List (List ℤ)).length ∧
      0 < 2 ∧
      (padding_batch [[1], [2, 3], [4], [5], [6]] [[9], [8], [7], [6], [5]] 2 0 0 9).length
        = 2 := by
  refine ⟨by decide, by decide, ?_⟩
  have h := (c9_padding_batch [[1], [2, 3], [4], [5], [6]] [[9], [8], [7], [6], [5]]
    2 0 0 9 (by decide) (by decide)).1
  rw [h]
  decide

/-! ## Claim C1 -/

theorem bleu_abc_eval :
    bleu [["a", "b", "c"]] [["a", "b", "c"]] 4 true = some (Real.exp 1) := by
  have hms : matches_by_order ([["a", "b", "c"]].zip [["a", "b", "c"]]) 4
      = [3, 2, 1, 0] := by decide
  have hps : possible_matches_by_order ([["a", "b", "c"]].zip [["a", "b", "c"]]) 4
      = [3, 2, 1, 0] := by decide
  have hprec : bleu_precisions [3, 2, 1, 0] [3, 2, 1, 0] true = [1, 1, 1, 1] := by
    norm_num [bleu_precisions]
  unfold bleu
  simp only [hms, hps, hprec]
  rw [show ([1, 1, 1, 1] : List ℚ).min? = some 1 by simp [List.min?_cons]]
  norm_num

/-- Claim C1 as stated is false on the code: for
`generated = reference = [["a","b","c"]]`, `max_order=4`, `smooth=True`, all
four smoothed precisions are `1` and the brevity penalty is `1`, but `_bleu`
feeds the arithmetic mean of the precisions, `sum((1/4) * p) = 1`, to
`np.exp` and returns `exp(1) ≈ 2.718`, not `1.0`. -/
theorem c1_counterexample :
    bleu [["a", "b", "c"]] [["a", "b", "c"]] 4 true ≠ some (1 : ℝ) := by
  rw [bleu_abc_eval]
  simp only [ne_eq, Option.some.injEq]
  intro h
  nlinarith [Real.exp_one_gt_d9]

/-- Claim C1 amended: on that exact-match input `_bleu` returns exactly
`exp(1)` — the brevity penalty is `1`, but the implementation substitutes the
arithmetic mean of the precisions (here `1`) for the canonical mean of their
logs (here `0`) as the exponent. -/
theorem c1_bleu_exact_match :
    bleu [["a", "b", "c"]] [["a", "b", "c"]] 4 true = some (Real.exp 1) :=
  bleu_abc_eval

/-! ## Claim C4 -/

/-- Claim C4 as stated is false on the code: with zero total reference
length (`refer_lists = [[]]`), `_bleu` reaches
`ratio = float(gen_length) / refer_length` with `refer_length == 0` and
raises `ZeroDivisionError` (modelled by `none`) instead of taking a
zero-fallback branch and returning normally. -/
theorem c4_counterexample :
    bleu ([[0]] : List (List ℕ)) [[]] 4 true = none := by
  unfold bleu
  norm_num
  cases (bleu_precisions (matches_by_order [([], [0])] 4)
    (possible_matches_by_order [([], [0])] 4) true).min? <;> rfl

/-- Claim C4 amended: the explicit zero-fallback branches cover zero possible
n-gram matches (smoothing, the `possible_matches_by_order[i] > 0` guard and
the `min(precisions) > 0` gate), and `_bleu` returns normally whenever
`max_order` is positive and the total reference length and total generated
length over the zipped sentence pairs are both nonzero; but a zero total
reference length — or a zero total generated length against a nonzero
reference — raises `ZeroDivisionError` at `gen_length / refer_length`
resp. `1 / ratio`. -/
theorem c4_bleu_no_error {α : Type} [DecidableEq α]
    (gen_lists refer_lists : List (List α)) (max_order : ℕ) (smooth : Bool)
    (hmo : 0 < max_order)
    (href : 0 < ((refer_lists.zip gen_lists).map (fun p => p.1.length)).sum)
    (hgen : 0 < ((refer_lists.zip gen_lists).map (fun p => p.2.length)).sum) :
    (bleu gen_lists refer_lists max_order smooth).isSome = true := by
  have hlen : (bleu_precisions
      (matches_by_order (refer_lists.zip gen_lists) max_order)
      (possible_matches_by_order (refer_lists.zip gen_lists) max_order) smooth).length
        = max_order := by
    simp [bleu_precisions, matches_by_order, possible_matches_by_order]
  obtain ⟨m, hm⟩ : ∃ m, (bleu_precisions
      (matches_by_order (refer_lists.zip gen_lists) max_order)
      (possible_matches_by_order (refer_lists.zip gen_lists) max_order) smooth).min?
        = some m := by
    rcases h : (bleu_precisions
      (matches_by_order (refer_lists.zip gen_lists) max_order)
      (possible_matches_by_order (refer_lists.zip gen_lists) max_order) smooth).min? with _ | m
    · rw [List.min?_eq_none_iff] at h
      rw [h] at hlen
      simp at hlen
      omega
    · exact ⟨m, rfl⟩
  simp only [bleu, hm]
  split
  case isTrue h => exact absurd h href.ne'
  case isFalse h =>
    split
    case isTrue h1 => rfl
    case isFalse h1 =>
      split
      case isTrue h2 =>
        exact absurd h2 (div_ne_zero (by exact_mod_cast hgen.ne') (by exact_mod_cast href.ne'))
      case isFalse h2 => rfl

/-- Witness for `c4_bleu_no_error`: one nonempty generated sentence against
one nonempty reference. -/
theorem c4_bleu_no_error_witness :
    0 < 1 ∧
      0 < ((([[5]] : List (List ℕ)).zip [[7]]).map (fun p => p.1.length)).sum ∧
      0 < ((([[5]] : List (List ℕ)).zip [[7]]).map (fun p => p.2.length)).sum ∧
      (bleu ([[7]] : List (List ℕ)) [[5]] 1 false).isSome = true :=
  ⟨by decide, by decide, by decide,
    c4_bleu_no_error [[7]] [[5]] 1 false (by decide) (by decide) (by decide)⟩

/-! ## Claim C7 -/

theorem parse_dict_select_mass_le {α : Type} (n_words : ℕ) (rate : ℚ) :
    ∀ (wc : List (α × ℕ)) (cur : ℕ),
      0 < (parse_dict_select n_words rate wc cur).length →
      ((cur + ((wc.take (parse_dict_select n_words rate wc cur).length).map Prod.snd).sum : ℕ) : ℚ)
          / (n_words : ℚ) ≤ rate
  | [], cur, h => by simp [parse_dict_select] at h
  | (w, c) :: rest, cur, h => by
    have heq : parse_dict_select n_words rate ((w, c) :: rest) cur
        = if ((cur + c : ℕ) : ℚ) / (n_words : ℚ) ≤ rate then
            w :: parse_dict_select n_words rate rest (cur + c) else [] := rfl
    by_cases hcond : ((cur + c : ℕ) : ℚ) / (n_words : ℚ) ≤ rate
    · rw [heq, if_pos hcond]
      rcases Nat.eq_zero_or_pos (parse_dict_select n_words rate rest (cur + c)).length
        with h0 | hpos
      · simp only [List.length_cons, h0, List.take_succ_cons, List.take_zero,
          List.map_cons, List.map_nil, List.sum_cons, List.sum_nil]
        rw [show cur + (c + 0) = cur + c from by omega]
        exact hcond
      · have ih := parse_dict_select_mass_le n_words rate rest (cur + c) hpos
        simp only [List.length_cons, List.take_succ_cons, List.map_cons, List.sum_cons]
        rw [show cur + (c + ((rest.take (parse_dict_select n_words rate rest (cur + c)).length).map
              Prod.snd).sum)
            = (cur + c) + ((rest.take (parse_dict_select n_words rate rest (cur + c)).length).map
              Prod.snd).sum from by omega]
        exact ih
    · rw [heq, if_neg hcond] at h
      exact absurd h (by simp)

theorem parse_dict_select_next_gt {α : Type} (n_words : ℕ) (rate : ℚ) :
    ∀ (wc : List (α × ℕ)) (cur : ℕ),
      (parse_dict_select n_words rate wc cur).length < wc.length →
      rate < ((cur + ((wc.take ((parse_dict_select n_words rate wc cur).length + 1)).map
          Prod.snd).sum : ℕ) : ℚ) / (n_words : ℚ)
  | [], cur, h => absurd h (by simp [parse_dict_select])
  | (w, c) :: rest, cur, h => by
    have heq : parse_dict_select n_words rate ((w, c) :: rest) cur
        = if ((cur + c : ℕ) : ℚ) / (n_words : ℚ) ≤ rate then
            w :: parse_dict_select n_words rate rest (cur + c) else [] := rfl
    by_cases hcond : ((cur + c : ℕ) : ℚ) / (n_words : ℚ) ≤ rate
    · rw [heq, if_pos hcond] at h ⊢
      have hlt : (parse_dict_select n_words rate rest (cur + c)).length < rest.length := by
        simp only [List.length_cons] at h
        omega
      have ih := parse_dict_select_next_gt n_words rate rest (cur + c) hlt
      simp only [List.length_cons, List.take_succ_cons, List.map_cons, List.sum_cons]
      rw [show cur + (c + ((rest.take ((parse_dict_select n_words rate rest (cur + c)).length + 1)).map
            Prod.snd).sum)
          = (cur + c) + ((rest.take ((parse_dict_select n_words rate rest (cur + c)).length + 1)).map
            Prod.snd).sum from by omega]
      exact ih
    · rw [heq, if_neg hcond]
      simp only [List.length_nil, Nat.zero_add, List.take_succ_cons, List.take_zero,
        List.map_cons, List.map_nil, List.sum_cons, List.sum_nil]
      rw [show cur + (c + 0) = cur + c from by omega]
      exact not_le.mp hcond

/-- Claim C7: for every coverage rate `r` in `(0,1]`, the vocabulary kept by
`_parse_dict` (beyond the four reserved tokens) has cumulative frequency mass
at most `r` times the total token count, and whenever some ranked token was
excluded, adding the next-ranked token would push the cumulative mass above
`r` times the total token count. -/
theorem c7_parse_dict_coverage {α : Type} (word_counts : List (α × ℕ)) (n_words : ℕ)
    (rate : ℚ) (hn : 0 < n_words) (hr0 : 0 < rate) (hr1 : rate ≤ 1) :
    (((word_counts.take (parse_dict_select n_words rate word_counts 0).length).map
        Prod.snd).sum : ℚ) ≤ rate * n_words ∧
      ((parse_dict_select n_words rate word_counts 0).length < word_counts.length →
        rate * n_words <
          (((word_counts.take ((parse_dict_select n_words rate word_counts 0).length + 1)).map
              Prod.snd).sum : ℚ)) := by
  have hnq : (0 : ℚ) < (n_words : ℚ) := by exact_mod_cast hn
  constructor
  · rcases Nat.eq_zero_or_pos (parse_dict_select n_words rate word_counts 0).length
      with h0 | hpos
    · rw [h0]
      simp only [List.take_zero, List.map_nil, List.sum_nil, Nat.cast_zero]
      positivity
    · have h := parse_dict_select_mass_le n_words rate word_counts 0 hpos
      rw [div_le_iff₀ hnq] at h
      simpa using h
  · intro hlt
    have h := parse_dict_select_next_gt n_words rate word_counts 0 hlt
    rw [lt_div_iff₀ hnq] at h
    simpa using h

/-- Witness for `c7_parse_dict_coverage`: two ranked words with counts 3 and
1, four tokens total, rate `1/2` — nothing is selected, the kept mass `0`
stays below `2` and the next-ranked token would reach `3 > 2`. -/
theorem c7_parse_dict_coverage_witness :
    (0 : ℕ) < 4 ∧ (0 : ℚ) < 1 / 2 ∧ (1 / 2 : ℚ) ≤ 1 ∧
      ((((([(0, 3), (1, 1)] : List (ℕ × ℕ)).take
          (parse_dict_select 4 (1 / 2) ([(0, 3), (1, 1)] : List (ℕ × ℕ)) 0).length).map
          Prod.snd).sum : ℕ) : ℚ) ≤ 1 / 2 * ((4 : ℕ) : ℚ) ∧
      (1 / 2 : ℚ) * ((4 : ℕ) : ℚ) <
        ((((([(0, 3), (1, 1)] : List (ℕ × ℕ)).take
            ((parse_dict_select 4 (1 / 2) ([(0, 3), (1, 1)] : List (ℕ × ℕ)) 0).length + 1)).map
            Prod.snd).sum : ℕ) : ℚ) := by
  have h := c7_parse_dict_coverage ([(0, 3), (1, 1)] : List (ℕ × ℕ)) 4 (1 / 2)
    (by norm_num) (by norm_num) (by norm_num)
  refine ⟨by norm_num, by norm_num, by norm_num, h.1, h.2 ?_⟩
  have hsel : parse_dict_select 4 (1 / 2 : ℚ) ([(0, 3), (1, 1)] : List (ℕ × ℕ)) 0 = [] := by
    norm_num [parse_dict_select]
  rw [hsel]
  simp

/-! ## Claim C6 -/

theorem perm_flatten_filter {α β : Type} [DecidableEq β] (f : α → β) :
    ∀ (keys : List β) (l : List α), keys.Nodup → (∀ x ∈ l, f x ∈ keys) →
      ((keys.map (fun k => l.filter (fun x => f x = k))).flatten).Perm l
  | [], l, _, hmem => by
    have hl : l = [] := List.eq_nil_iff_forall_not_mem.mpr (fun x hx => by simpa using hmem x hx)
    simp [hl]
  | k :: ks, l, hnd, hmem => by
    have hk : k ∉ ks := (List.nodup_cons.mp hnd).1
    have hnd2 : ks.Nodup := (List.nodup_cons.mp hnd).2
    have hmem2 : ∀ x ∈ l.filter (fun x => !decide (f x = k)), f x ∈ ks := by
      intro x hx
      rw [List.mem_filter] at hx
      have hne : f x ≠ k := by simpa using hx.2
      rcases List.mem_cons.mp (hmem x hx.1) with h | h
      · exact absurd h hne
      · exact h
    have ih := perm_flatten_filter f ks (l.filter (fun x => !decide (f x = k))) hnd2 hmem2
    have heq : ks.map (fun q => (l.filter (fun x => !decide (f x = k))).filter
          (fun x => f x = q))
        = ks.map (fun q => l.filter (fun x => f x = q)) := by
      apply List.map_congr_left
      intro q hq
      rw [List.filter_filter]
      apply List.filter_congr
      intro x _
      by_cases h : f x = q
      · have hqk : ¬q = k := fun hh => hk (hh ▸ hq)
        simp [h, hqk]
      · simp [h]
    rw [heq] at ih
    have hsplit := List.filter_append_perm (fun x => decide (f x = k)) l
    have h1 : ((k :: ks).map (fun q => l.filter (fun x => f x = q))).flatten
        = l.filter (fun x => f x = k)
            ++ (ks.map (fun q => l.filter (fun x => f x = q))).flatten := by
      simp
    rw [h1]
    exact (ih.append_left _).trans hsplit

theorem flatten_buckets_perm (bIds : List ℕ) :
    ((((bIds.enum.map Prod.snd).dedup.insertionSort (· ≤ ·)).map
      (fun b => (bIds.enum.filter (fun t => t.2 = b)).map Prod.fst)).flatten).Perm
      (List.range bIds.length) := by
  have hnd : ((bIds.enum.map Prod.snd).dedup.insertionSort (· ≤ ·)).Nodup :=
    ((List.perm_insertionSort _ _).nodup_iff).mpr (List.nodup_dedup _)
  have hmem : ∀ x ∈ bIds.enum,
      x.2 ∈ (bIds.enum.map Prod.snd).dedup.insertionSort (· ≤ ·) := by
    intro x hx
    exact ((List.perm_insertionSort _ _).mem_iff).mpr
      (List.mem_dedup.mpr (List.mem_map_of_mem Prod.snd hx))
  have hperm := perm_flatten_filter Prod.snd
    ((bIds.enum.map Prod.snd).dedup.insertionSort (· ≤ ·)) bIds.enum hnd hmem
  have hrw : ((((bIds.enum.map Prod.snd).dedup.insertionSort (· ≤ ·)).map
        (fun b => (bIds.enum.filter (fun t => t.2 = b)).map Prod.fst)).flatten)
      = List.map Prod.fst
          ((((bIds.enum.map Prod.snd).dedup.insertionSort (· ≤ ·)).map
            (fun b => bIds.enum.filter (fun t => t.2 = b))).flatten) := by
    simp only [List.map_flatten, List.map_map]
    rfl
  rw [hrw]
  have h2 := hperm.map Prod.fst
  rw [List.enum_map_fst] at h2
  exact h2

theorem bucketize_perm (encode_line_lens decode_line_lens : List ℕ) (n_buckets : ℕ)
    (idxs : List ℕ)
    (h : bucketize encode_line_lens decode_line_lens n_buckets = some idxs) :
    idxs.Perm (List.range (encode_line_lens.zip decode_line_lens).length) := by
  simp only [bucketize] at h
  split at h
  · exact absurd h (by simp)
  · split at h
    · exact absurd h (by simp)
    · injection h with h2
      subst h2
      simpa using flatten_buckets_perm
        ((encode_line_lens.zip decode_line_lens).map
          (fun p => max p.1 p.2 /
            ((encode_line_lens.foldr max 0 + n_buckets - 1) / n_buckets)))

/-- Claim C6 as stated is false on the code for the empty filtered corpus:
with `N = 0` pairs and `B = 2 > 1` buckets, `max(encode_line_lens)` is
applied to an empty list and raises `ValueError` (modelled by `none`), so
the bucketizing step does not return a permutation of the zero indices. -/
theorem c6_counterexample : bucketize [] [] 2 = none := rfl

/-- Claim C6 amended: for every *nonempty* filtered corpus (each retained
line has positive token count) and every bucket count `B > 1`, the
bucketizing step returns a permutation of the `N` original indices — no pair
is lost and no pair is duplicated. -/
theorem c6_bucketize_perm (encode_line_lens decode_line_lens : List ℕ) (n_buckets : ℕ)
    (hB : 1 < n_buckets) (hne : encode_line_lens ≠ [])
    (hlen : encode_line_lens.length = decode_line_lens.length)
    (hpos : ∀ n ∈ encode_line_lens, 0 < n) :
    ∃ idxs, bucketize encode_line_lens decode_line_lens n_buckets = some idxs ∧
      idxs.Perm (List.range encode_line_lens.length) := by
  have hdne : decode_line_lens ≠ [] := by
    intro hd
    rw [hd] at hlen
    exact hne (List.length_eq_zero.mp (by simpa using hlen))
  have hguard : ¬(encode_line_lens = [] ∨ decode_line_lens = []) := by
    rintro (h | h)
    · exact hne h
    · exact hdne h
  obtain ⟨x, hx⟩ := List.exists_mem_of_ne_nil encode_line_lens hne
  have hmax : 1 ≤ encode_line_lens.foldr max 0 :=
    le_trans (hpos x hx) (mem_le_foldr_max _ _ hx)
  have hw : ¬((encode_line_lens.foldr max 0 + n_buckets - 1) / n_buckets = 0) := by
    have : 0 < (encode_line_lens.foldr max 0 + n_buckets - 1) / n_buckets :=
      Nat.div_pos (by omega) (by omega)
    omega
  obtain ⟨idxs, hsome⟩ : ∃ idxs,
      bucketize encode_line_lens decode_line_lens n_buckets = some idxs := by
    simp only [bucketize]
    rw [if_neg hguard, if_neg hw]
    exact ⟨_, rfl⟩
  refine ⟨idxs, hsome, ?_⟩
  have hp := bucketize_perm encode_line_lens decode_line_lens n_buckets _ hsome
  rwa [List.length_zip, ← hlen, min_self] at hp

/-- Witness for `c6_bucketize_perm`: lengths `[1, 2]` and `[3, 1]`,
two buckets. -/
theorem c6_bucketize_perm_witness :
    1 < 2 ∧ ([1, 2] : List ℕ) ≠ [] ∧ ([1, 2] : List ℕ).length = ([3, 1] : List ℕ).length ∧
      (∀ n ∈ ([1, 2] : List ℕ), 0 < n) ∧
      (∃ idxs, bucketize [1, 2] [3, 1] 2 = some idxs ∧
        idxs.Perm (List.range ([1, 2] : List ℕ).length)) :=
  ⟨by decide, by decide, by decide, by decide,
    c6_bucketize_perm [1, 2] [3, 1] 2 (by decide) (by decide) (by decide) (by decide)⟩

/-! ## Claim C8 -/

theorem getD_pair_mem_zip {l1 l2 : List (List ℤ)} (hlen : l1.length = l2.length)
    {i : ℕ} (hi : i < l1.length) :
    (l1.getD i [], l2.getD i []) ∈ l1.zip l2 := by
  have hi2 : i < l2.length := hlen ▸ hi
  have hz : i < (l1.zip l2).length := by
    rw [List.length_zip]
    omega
  have : (l1.zip l2)[i] = (l1[i], l2[i]) := List.getElem_zip
  rw [List.getD_eq_getElem l1 [] hi, List.getD_eq_getElem l2 [] hi2]
  rw [← this]
  exact List.getElem_mem hz

theorem parse_filter_length {encV decV : String → Option ℤ} {eu du : ℤ} {mn : ℕ}
    {mx : ℕ∞} :
    ∀ pairs, (parse_filter encV decV eu du mn mx pairs).1.length
      = (parse_filter encV decV eu du mn mx pairs).2.length
  | [] => rfl
  | (e, d) :: rest => by
    by_cases h1 : ¬(mn ≤ e.length ∧ (e.length : ℕ∞) ≤ mx)
    · simp only [parse_filter, if_pos h1]
      exact parse_filter_length rest
    · by_cases h2 : ¬(mn ≤ d.length ∧ (d.length : ℕ∞) ≤ mx)
      · simp only [parse_filter, if_neg h1, if_pos h2]
        exact parse_filter_length rest
      · by_cases h3 : 0 < e.length ∧ 0 < d.length ∧
            (n_unk encV e : ℚ) / (e.length : ℚ) < 0.2 ∧
            (n_unk decV d : ℚ) / (d.length : ℚ) < 0.2
        · simp only [parse_filter, if_neg h1, if_neg h2, if_pos h3, List.length_cons]
          rw [parse_filter_length rest]
        · simp only [parse_filter, if_neg h1, if_neg h2, if_neg h3]
          exact parse_filter_length rest

theorem parse_filter_mem {encV decV : String → Option ℤ} {eu du : ℤ} {mn : ℕ}
    {mx : ℕ∞} :
    ∀ (pairs : List (List String × List String)) (p : List ℤ × List ℤ),
      p ∈ (parse_filter encV decV eu du mn mx pairs).1.zip
            (parse_filter encV decV eu du mn mx pairs).2 →
      ∃ e d, (e, d) ∈ pairs ∧
        mn ≤ e.length ∧ (e.length : ℕ∞) ≤ mx ∧ mn ≤ d.length ∧ (d.length : ℕ∞) ≤ mx ∧
        0 < e.length ∧ 0 < d.length ∧
        (n_unk encV e : ℚ) / (e.length : ℚ) < 0.2 ∧
        (n_unk decV d : ℚ) / (d.length : ℚ) < 0.2 ∧
        p = (line_to_ids encV eu e, line_to_ids decV du d)
  | [], p, hp => by simp [parse_filter] at hp
  | (e, d) :: rest, p, hp => by
    by_cases h1 : ¬(mn ≤ e.length ∧ (e.length : ℕ∞) ≤ mx)
    · rw [show parse_filter encV decV eu du mn mx ((e, d) :: rest)
          = parse_filter encV decV eu du mn mx rest by
        simp only [parse_filter, if_pos h1]] at hp
      obtain ⟨e2, d2, hmem, hrest⟩ := parse_filter_mem rest p hp
      exact ⟨e2, d2, List.mem_cons_of_mem _ hmem, hrest⟩
    · by_cases h2 : ¬(mn ≤ d.length ∧ (d.length : ℕ∞) ≤ mx)
      · rw [show parse_filter encV decV eu du mn mx ((e, d) :: rest)
            = parse_filter encV decV eu du mn mx rest by
          simp only [parse_filter, if_neg h1, if_pos h2]] at hp
        obtain ⟨e2, d2, hmem, hrest⟩ := parse_filter_mem rest p hp
        exact ⟨e2, d2, List.mem_cons_of_mem _ hmem, hrest⟩
      · by_cases h3 : 0 < e.length ∧ 0 < d.length ∧
            (n_unk encV e : ℚ) / (e.length : ℚ) < 0.2 ∧
            (n_unk decV d : ℚ) / (d.length : ℚ) < 0.2
        · rw [show parse_filter encV decV eu du mn mx ((e, d) :: rest)
              = (line_to_ids encV eu e :: (parse_filter encV decV eu du mn mx rest).1,
                 line_to_ids decV du d :: (parse_filter encV decV eu du mn mx rest).2) by
            simp only [parse_filter, if_neg h1, if_neg h2, if_pos h3]] at hp
          rw [List.zip_cons_cons] at hp
          rcases List.mem_cons.mp hp with hhead | htail
          · rw [not_not] at h1 h2
            exact ⟨e, d, List.mem_cons_self _ _, h1.1, h1.2, h2.1, h2.2,
              h3.1, h3.2.1, h3.2.2.1, h3.2.2.2, hhead⟩
          · obtain ⟨e2, d2, hmem, hrest⟩ := parse_filter_mem rest p htail
            exact ⟨e2, d2, List.mem_cons_of_mem _ hmem, hrest⟩
        · rw [show parse_filter encV decV eu du mn mx ((e, d) :: rest)
              = parse_filter encV decV eu du mn mx rest by
            simp only [parse_filter, if_neg h1, if_neg h2, if_neg h3]] at hp
          obtain ⟨e2, d2, hmem, hrest⟩ := parse_filter_mem rest p hp
          exact ⟨e2, d2, List.mem_cons_of_mem _ hmem, hrest⟩

/-- Claim C8: for parallel corpora with equal line counts (the `assert`
passes), whenever `_parse_seq` returns, it returns two lists of equal
length, and every retained pair comes from an input line pair that satisfies
the `[min_len, max_len]` length bounds on both sides and has unknown-token
fraction strictly below `0.2` on both sides (pairs violating a constraint
are skipped, not an error); with `n_buckets ≤ 1` (the default is `0`) it
always returns. -/
theorem c8_parse_seq (encode_lines decode_lines : List (List String))
    (encV decV : String → Option ℤ) (enc_unk dec_unk : ℤ) (min_len : ℕ)
    (max_len : ℕ∞) (n_buckets : ℕ)
    (hlen : encode_lines.length = decode_lines.length) :
    (∀ res, parse_seq encode_lines decode_lines encV decV enc_unk dec_unk min_len max_len
        n_buckets = some res →
      res.1.length = res.2.length ∧
      ∀ p ∈ res.1.zip res.2, ∃ e d, (e, d) ∈ encode_lines.zip decode_lines ∧
        min_len ≤ e.length ∧ (e.length : ℕ∞) ≤ max_len ∧
        min_len ≤ d.length ∧ (d.length : ℕ∞) ≤ max_len ∧
        0 < e.length ∧ 0 < d.length ∧
        (n_unk encV e : ℚ) / (e.length : ℚ) < 0.2 ∧
        (n_unk decV d : ℚ) / (d.length : ℚ) < 0.2 ∧
        p = (line_to_ids encV enc_unk e, line_to_ids decV dec_unk d)) ∧
    (n_buckets ≤ 1 →
      (parse_seq encode_lines decode_lines encV decV enc_unk dec_unk min_len max_len
        n_buckets).isSome = true) := by
  have hne : ¬(encode_lines.length ≠ decode_lines.length) := not_not_intro hlen
  constructor
  · intro res hres
    simp only [parse_seq] at hres
    rw [if_neg hne] at hres
    by_cases hb : 1 < n_buckets
    · rw [if_pos hb, Option.map_eq_some'] at hres
      obtain ⟨idxs, hbk, hres⟩ := hres
      have hperm := bucketize_perm _ _ _ _ hbk
      have hfl := @parse_filter_length encV decV enc_unk dec_unk min_len max_len
        (encode_lines.zip decode_lines)
      have hilen : ∀ i ∈ idxs,
          i < (parse_filter encV decV enc_unk dec_unk min_len max_len
            (encode_lines.zip decode_lines)).1.length := by
        intro i hi
        have h2 := hperm.mem_iff.mp hi
        rw [List.mem_range, List.length_zip, List.length_map, List.length_map, hfl,
          min_self] at h2
        rw [hfl]
        exact h2
      constructor
      · rw [← hres]
        simp
      · intro p hp
        rw [← hres, List.zip_map'] at hp
        obtain ⟨i, hi, hpe⟩ := List.mem_map.mp hp
        exact parse_filter_mem _ p
          (hpe ▸ getD_pair_mem_zip (parse_filter_length _) (hilen i hi))
    · rw [if_neg hb] at hres
      injection hres with hres
      rw [← hres]
      exact ⟨parse_filter_length _, fun p hp => parse_filter_mem _ p hp⟩
  · intro hble
    have hb : ¬(1 < n_buckets) := by omega
    simp only [parse_seq]
    rw [if_neg hne, if_neg hb]
    rfl

/-- Witness for `c8_parse_seq`: one-line corpora whose only pair is rejected
(all tokens unknown), no bucketizing. -/
theorem c8_parse_seq_witness :
    ([["x"]] : List (List String)).length = ([["y"]] : List (List String)).length ∧
      (parse_seq [["x"]] [["y"]] (fun _ => none) (fun _ => none) 1 1 0 ⊤ 0).isSome
        = true :=
  ⟨rfl, (c8_parse_seq [["x"]] [["y"]] (fun _ => none) (fun _ => none) 1 1 0 ⊤ 0
    rfl).2 (by norm_num)⟩
